import Mathlib

/-!
Verification of the client-side state-synchronization transport of the
Pixel Soup game (frontend/test/test2.py `Pipe`, frontend/views/gameview.py
`networking` / `GameView.stream`), as a shallow embedding.

Bytes are modelled as `List Nat`; the reliable-channel text messages as
`String`.  Python's `bytes.split(sep)` / `str.split(sep)` with a nonempty
separator (leftmost, non-overlapping) is embedded as `splitSep` below.
-/

namespace PixelSoup

section Split

variable {α : Type _} [DecidableEq α]

/-- Test whether `sep` is an initial segment of `l` (Python `startswith`). -/
def isPre : List α → List α → Bool
  | [], _ => true
  | _ :: _, [] => false
  | a :: as, b :: bs => if a = b then isPre as bs else false

/-- Whether `sep` occurs contiguously somewhere inside `l`. -/
def containsSeq (sep : List α) : List α → Bool
  | [] => sep.isEmpty
  | a :: t => isPre sep (a :: t) || containsSeq sep t

/-- Fuel-indexed splitter realizing Python's `bytes.split` / `str.split` with an
explicit (nonempty) separator: scan left to right, cut at each leftmost,
non-overlapping occurrence of `sep`.  Fuel `l.length` always suffices. -/
def splitSepF (sep : List α) : Nat → List α → List (List α)
  | 0, l => [l]
  | _ + 1, [] => [[]]
  | fuel + 1, a :: t =>
    if isPre sep (a :: t) then [] :: splitSepF sep fuel ((a :: t).drop sep.length)
    else (splitSepF sep fuel t).modifyHead (fun c => a :: c)

/-- Python's `l.split(sep)` for a nonempty separator. -/
def splitSep (sep l : List α) : List (List α) := splitSepF sep l.length l

theorem isPre_length_le {sep l : List α} (h : isPre sep l = true) : sep.length ≤ l.length := by
  induction sep generalizing l with
  | nil => simp
  | cons s ss ih =>
    cases l with
    | nil => simp [isPre] at h
    | cons b bs =>
      simp only [isPre] at h
      split at h
      · simpa using ih h
      · simp at h

theorem splitSepF_fuel (sep : List α) (hsep : sep ≠ []) :
    ∀ (f1 f2 : Nat) (l : List α), l.length ≤ f1 → l.length ≤ f2 →
      splitSepF sep f1 l = splitSepF sep f2 l := by
  intro f1
  induction f1 with
  | zero =>
    intro f2 l h1 _
    have hl : l = [] := by
      cases l with
      | nil => rfl
      | cons a t => simp at h1
    subst hl
    cases f2 <;> rfl
  | succ f ih =>
    intro f2 l h1 h2
    cases l with
    | nil => cases f2 <;> rfl
    | cons a t =>
      cases f2 with
      | zero => simp at h2
      | succ g =>
        simp only [splitSepF]
        by_cases hpre : isPre sep (a :: t) = true
        · rw [if_pos hpre, if_pos hpre]
          have hs : 1 ≤ sep.length := by
            cases sep with
            | nil => exact absurd rfl hsep
            | cons s ss => simp
          have hd : ((a :: t).drop sep.length).length ≤ t.length := by
            simp only [List.length_drop, List.length_cons]
            omega
          have hlt : t.length ≤ f := by simpa using h1
          have hlt' : t.length ≤ g := by simpa using h2
          rw [ih g _ (le_trans hd hlt) (le_trans hd hlt')]
        · rw [if_neg hpre, if_neg hpre]
          have hlt : t.length ≤ f := by simpa using h1
          have hlt' : t.length ≤ g := by simpa using h2
          rw [ih g t hlt hlt']

theorem splitSep_nil (sep : List α) : splitSep sep ([] : List α) = [[]] := rfl

theorem splitSep_pos (sep : List α) (hsep : sep ≠ []) {l : List α}
    (h : isPre sep l = true) :
    splitSep sep l = [] :: splitSep sep (l.drop sep.length) := by
  cases l with
  | nil =>
    cases sep with
    | nil => exact absurd rfl hsep
    | cons s ss => simp [isPre] at h
  | cons a t =>
    show splitSepF sep (t.length + 1) (a :: t) = _
    simp only [splitSepF, h, if_true]
    have hs : 1 ≤ sep.length := by
      cases sep with
      | nil => exact absurd rfl hsep
      | cons s ss => simp
    have hd : ((a :: t).drop sep.length).length ≤ t.length := by
      simp only [List.length_drop, List.length_cons]
      omega
    rw [splitSepF_fuel sep hsep t.length ((a :: t).drop sep.length).length _ hd le_rfl]
    rfl

theorem splitSep_neg (sep : List α) {a : α} {t : List α}
    (h : isPre sep (a :: t) = false) :
    splitSep sep (a :: t) = (splitSep sep t).modifyHead (fun c => a :: c) := by
  show splitSepF sep (t.length + 1) (a :: t) = _
  simp only [splitSepF, h, if_false]
  rfl

theorem splitSep_ne_nil (sep l : List α) : splitSep sep l ≠ [] := by
  show splitSepF sep l.length l ≠ []
  generalize l.length = fuel
  induction fuel generalizing l with
  | zero => simp [splitSepF]
  | succ f ih =>
    cases l with
    | nil => simp [splitSepF]
    | cons a t =>
      simp only [splitSepF]
      by_cases hpre : isPre sep (a :: t) = true
      · simp [hpre]
      · simp only [hpre, if_false]
        rcases hx : splitSepF sep f t with _ | ⟨c, cs⟩
        · exact absurd hx (ih t)
        · simp

theorem splitSep_of_not_contains (sep : List α) :
    ∀ (l : List α), containsSeq sep l = false → splitSep sep l = [l] := by
  intro l
  induction l with
  | nil => intro _; exact splitSep_nil sep
  | cons a t ih =>
    intro h
    simp only [containsSeq, Bool.or_eq_false_iff] at h
    rw [splitSep_neg sep h.1, ih h.2]
    rfl

end Split

/-! ## The two-level delimiter scheme of `Pipe.transport`

`transport` frames datagrams with `b"||"` (inner) and `b"||||"` (outer);
the pipe byte is 124. -/

/-- The byte value of the ASCII pipe character, the alphabet of both delimiters. -/
def pipe : Nat := 124

/-- INNER_DELIM, `b"||"` (`data[0].split(b"||")` in `Pipe.transport`). -/
def innerDelim : List Nat := [pipe, pipe]

/-- OUTER_DELIM, `b"||||"` (`data.split(b"||||")` in `Pipe.transport`). -/
def outerDelim : List Nat := [pipe, pipe, pipe, pipe]

/-- A payload on which the delimiter scheme is faithful: nonempty, with no
occurrence of INNER_DELIM inside it, and not ending in a pipe byte. -/
def goodPayload (p : List Nat) : Bool :=
  !p.isEmpty && !containsSeq innerDelim p && !(p.getLast? == some pipe)

theorem goodPayload_spec {p : List Nat} (h : goodPayload p = true) :
    p ≠ [] ∧ containsSeq innerDelim p = false ∧ p.getLast? ≠ some pipe := by
  simp only [goodPayload, Bool.and_eq_true, Bool.not_eq_true', beq_eq_false_iff_ne,
    ne_eq] at h
  refine ⟨?_, h.1.2, h.2⟩
  intro hnil
  subst hnil
  simp at h

theorem modifyHead_modifyHead (f g : List Nat → List Nat) (l : List (List Nat)) :
    (l.modifyHead g).modifyHead f = l.modifyHead (fun c => f (g c)) := by
  cases l <;> rfl

/-- Crossing a `goodPayload` never matches a delimiter: a separator starting
with two pipes is not a prefix of `p ++ rest` when `p` is good. -/
theorem isPre_pipes_good (t0 : List Nat) :
    ∀ (q : List Nat), goodPayload q = true → ∀ (tail : List Nat),
      isPre (pipe :: pipe :: t0) (q ++ tail) = false := by
  intro q hq tail
  obtain ⟨hne, hcont, hlast⟩ := goodPayload_spec hq
  cases q with
  | nil => exact absurd rfl hne
  | cons a q' =>
    by_cases ha : a = pipe
    · subst ha
      cases q' with
      | nil => simp at hlast
      | cons b q'' =>
        have hb : b ≠ pipe := by
          intro hb
          subst hb
          simp [containsSeq, innerDelim, isPre] at hcont
        simp [isPre, Ne.symm hb]
    · simp [isPre, Ne.symm ha]

/-- Scanning through a `goodPayload` with a pipe-headed separator just carries
the payload into the current chunk. -/
theorem splitSep_payload_append (t0 : List Nat) :
    ∀ (p : List Nat), goodPayload p = true → ∀ (rest : List Nat),
      splitSep (pipe :: pipe :: t0) (p ++ rest) =
        (splitSep (pipe :: pipe :: t0) rest).modifyHead (fun c => p ++ c) := by
  intro p
  induction p with
  | nil => intro hp; simp [goodPayload] at hp
  | cons a p' ih =>
    intro hp rest
    obtain ⟨_, hcont, hlast⟩ := goodPayload_spec hp
    cases p' with
    | nil =>
      have ha : a ≠ pipe := by
        intro h
        exact hlast (by simp [h])
      have hnp : isPre (pipe :: pipe :: t0) (a :: rest) = false := by
        simp [isPre, Ne.symm ha]
      show splitSep (pipe :: pipe :: t0) (a :: rest) = _
      rw [splitSep_neg _ hnp]
      rfl
    | cons b p'' =>
      have hgood' : goodPayload (b :: p'') = true := by
        have hc2 : containsSeq innerDelim (b :: p'') = false := by
          simp only [containsSeq, Bool.or_eq_false_iff] at hcont ⊢
          exact hcont.2
        have hl2 : (b :: p'').getLast? ≠ some pipe := by
          intro h
          exact hlast (by rw [List.getLast?_cons_cons]; exact h)
        simp only [goodPayload, Bool.and_eq_true, Bool.not_eq_true', beq_eq_false_iff_ne]
        exact ⟨⟨by simp, hc2⟩, hl2⟩
      have hnp : isPre (pipe :: pipe :: t0) (a :: (b :: p'' ++ rest)) = false := by
        by_cases ha : a = pipe
        · subst ha
          have hb : b ≠ pipe := by
            intro hb
            subst hb
            simp [containsSeq, innerDelim, isPre] at hcont
          simp [isPre, Ne.symm hb]
        · simp [isPre, Ne.symm ha]
      show splitSep (pipe :: pipe :: t0) (a :: (b :: p'' ++ rest)) = _
      rw [splitSep_neg _ hnp, ih hgood' rest, modifyHead_modifyHead]
      rfl

/-- The spec's `pack` join: payloads joined with a separator (no terminator). -/
def joinWith (sep : List Nat) : List (List Nat) → List Nat
  | [] => []
  | [p] => p
  | p :: q :: r => p ++ sep ++ joinWith sep (q :: r)

theorem joinWith_head (sep : List Nat) (q : List Nat) (R : List (List Nat)) :
    ∃ t, joinWith sep (q :: R) = q ++ t := by
  cases R with
  | nil => exact ⟨[], by simp [joinWith]⟩
  | cons r R' => exact ⟨sep ++ joinWith sep (r :: R'), by simp [joinWith, List.append_assoc]⟩

/-- Modelled from the spec: the peer-side `pack` of the Frame Codec (the source's
`Pipe.transport` only ever packs a single payload as `dumps(...) + b"||||"`; the
general multi-payload pack exists on the opaque peer).  Per the spec it joins the
payloads with INNER_DELIM and appends OUTER_DELIM once at the end. -/
def packSpec (P : List (List Nat)) : List Nat := joinWith innerDelim P ++ outerDelim

/-- Splitting a packed body on OUTER_DELIM finds only the terminal delimiter,
provided every payload is good. -/
theorem splitSep_outer_pack :
    ∀ (P : List (List Nat)), P ≠ [] → P.all goodPayload = true →
      splitSep outerDelim (joinWith innerDelim P ++ outerDelim) =
        [joinWith innerDelim P, []] := by
  intro P
  induction P with
  | nil => intro h; exact absurd rfl h
  | cons p P' ih =>
    intro _ hall
    simp only [List.all_cons, Bool.and_eq_true] at hall
    have hp : goodPayload p = true := hall.1
    cases P' with
    | nil =>
      show splitSep outerDelim (p ++ outerDelim) = [p, []]
      have ho : outerDelim = pipe :: pipe :: [pipe, pipe] := rfl
      rw [ho, splitSep_payload_append [pipe, pipe] p hp]
      have hsplit : splitSep (pipe :: pipe :: [pipe, pipe]) (pipe :: pipe :: [pipe, pipe]) =
          [[], []] := by decide
      rw [hsplit]
      simp
    | cons q P'' =>
      have hq : goodPayload q = true := by
        simp only [List.all_cons, Bool.and_eq_true] at hall
        exact hall.2.1
      obtain ⟨t1, ht1⟩ := joinWith_head innerDelim q P''
      have hjoin : joinWith innerDelim (p :: q :: P'') =
          p ++ (pipe :: pipe :: joinWith innerDelim (q :: P'')) := by
        simp [joinWith, innerDelim, List.append_assoc]
      rw [hjoin]
      have ho : outerDelim = pipe :: pipe :: [pipe, pipe] := rfl
      have hbody : joinWith innerDelim (q :: P'') ++ outerDelim = q ++ (t1 ++ outerDelim) := by
        rw [ht1, List.append_assoc]
      have h1 : isPre outerDelim
          (pipe :: pipe :: (joinWith innerDelim (q :: P'') ++ outerDelim)) = false := by
        rw [hbody]
        have := isPre_pipes_good [] q hq (t1 ++ outerDelim)
        simp only [outerDelim, isPre, if_pos rfl]
        exact this
      have h2 : isPre outerDelim
          (pipe :: (joinWith innerDelim (q :: P'') ++ outerDelim)) = false := by
        rw [hbody]
        have := isPre_pipes_good [pipe] q hq (t1 ++ outerDelim)
        simp only [outerDelim, isPre, if_pos rfl]
        exact this
      calc splitSep outerDelim
            ((p ++ (pipe :: pipe :: joinWith innerDelim (q :: P''))) ++ outerDelim)
          = splitSep outerDelim
            (p ++ (pipe :: pipe :: (joinWith innerDelim (q :: P'') ++ outerDelim))) := by
            rw [List.append_assoc]
            rfl
        _ = (splitSep outerDelim
              (pipe :: pipe :: (joinWith innerDelim (q :: P'') ++ outerDelim))).modifyHead
              (fun c => p ++ c) := by
            rw [ho]
            exact splitSep_payload_append [pipe, pipe] p hp _
        _ = ((splitSep outerDelim
              (pipe :: (joinWith innerDelim (q :: P'') ++ outerDelim))).modifyHead
              (fun c => pipe :: c)).modifyHead (fun c => p ++ c) := by
            rw [splitSep_neg _ h1]
        _ = (((splitSep outerDelim
              (joinWith innerDelim (q :: P'') ++ outerDelim)).modifyHead
              (fun c => pipe :: c)).modifyHead
              (fun c => pipe :: c)).modifyHead (fun c => p ++ c) := by
            rw [splitSep_neg _ h2]
        _ = [p ++ (pipe :: pipe :: joinWith innerDelim (q :: P'')), []] := by
            rw [ih (by simp) (by simpa using hall.2)]
            rfl

/-- Splitting the joined body on INNER_DELIM recovers the payloads. -/
theorem splitSep_inner_join :
    ∀ (P : List (List Nat)), P ≠ [] → P.all goodPayload = true →
      splitSep innerDelim (joinWith innerDelim P) = P := by
  intro P
  induction P with
  | nil => intro h; exact absurd rfl h
  | cons p P' ih =>
    intro _ hall
    simp only [List.all_cons, Bool.and_eq_true] at hall
    have hp : goodPayload p = true := hall.1
    cases P' with
    | nil =>
      show splitSep innerDelim p = [p]
      exact splitSep_of_not_contains innerDelim p (goodPayload_spec hp).2.1
    | cons q P'' =>
      have hjoin : joinWith innerDelim (p :: q :: P'') =
          p ++ (pipe :: pipe :: joinWith innerDelim (q :: P'')) := by
        simp [joinWith, innerDelim, List.append_assoc]
      rw [hjoin]
      show splitSep (pipe :: pipe :: []) (p ++ (pipe :: pipe :: joinWith innerDelim (q :: P''))) =
        p :: q :: P''
      rw [splitSep_payload_append [] p hp]
      have hpos : isPre (pipe :: pipe :: ([] : List Nat))
          (pipe :: pipe :: joinWith innerDelim (q :: P'')) = true := by
        simp [isPre]
      rw [splitSep_pos _ (by simp) hpos]
      have hdrop : (pipe :: pipe :: joinWith innerDelim (q :: P'')).drop
          (pipe :: pipe :: ([] : List Nat)).length = joinWith innerDelim (q :: P'') := rfl
      rw [hdrop]
      have hih : splitSep (pipe :: pipe :: ([] : List Nat)) (joinWith innerDelim (q :: P'')) =
          q :: P'' := ih (by simp) (by simpa using hall.2)
      rw [hih]
      simp

/-! ## Frame Codec values and serialization

`Pipe.transport` serializes a Python list with `pickle.dumps` and decodes with
`pickle.loads`.  `pickle` is an external standard-library collaborator whose
byte format is not part of this repository, so the codec is modelled from the
spec contract. -/

/-- The values carried in a frame: numbers, strings and nested sequences
(the "primitive/composite values" of the spec's data model). -/
inductive Value where
  | int (i : Int)
  | str (s : String)
  | list (vs : List Value)

/-- Unary-with-terminator encoding of a natural number. -/
def encNat (n : Nat) : List Nat := List.replicate n 1 ++ [0]

/-- Inverse of `encNat`, returning the remainder of the input. -/
def decodeNat : List Nat → Option (Nat × List Nat)
  | 0 :: r => some (0, r)
  | 1 :: r =>
    match decodeNat r with
    | some (n, r') => some (n + 1, r')
    | none => none
  | _ => none

/-- Sign-tagged encoding of an integer. -/
def encInt (i : Int) : List Nat :=
  if i < 0 then 1 :: encNat (-i).toNat else 0 :: encNat i.toNat

/-- Inverse of `encInt`. -/
def decodeInt : List Nat → Option (Int × List Nat)
  | 0 :: r => (decodeNat r).map (fun x => ((x.1 : Int), x.2))
  | 1 :: r => (decodeNat r).map (fun x => (-(x.1 : Int), x.2))
  | _ => none

/-- Encoding of one character as its code point. -/
def encChar (c : Char) : List Nat := encNat c.toNat

/-- Decode `k` characters. -/
def decodeChars : Nat → List Nat → Option (List Char × List Nat)
  | 0, l => some ([], l)
  | k + 1, l =>
    match decodeNat l with
    | some (n, r) =>
      match decodeChars k r with
      | some (cs, r') => some (Char.ofNat n :: cs, r')
      | none => none
    | none => none

/-- Length-prefixed encoding of a list of characters. -/
def encStr (cs : List Char) : List Nat := encNat cs.length ++ (cs.map encChar).flatten

mutual

/-- Modelled from the spec: `encode` (the source's `pickle.dumps`, an external
library).  A concrete tagged serializer realizing the spec's Frame Codec
contract — it "round-trips arbitrary nested primitive/composite values
(numbers, strings, nested sequences) losslessly".  Tags: 0 integer, 1 string,
2 sequence, 3 end-of-sequence marker. -/
def encodeV : Value → List Nat
  | .int i => 0 :: encInt i
  | .str s => 1 :: encStr s.data
  | .list vs => 2 :: encodeList vs

/-- Encoding of a sequence of values, terminated by the marker 3. -/
def encodeList : List Value → List Nat
  | [] => [3]
  | v :: vs => encodeV v ++ encodeList vs

end

/-- Modelled from the spec: fuel-indexed decoder of a marker-terminated
sequence of encoded values (inverse of `encodeList`); fuel `l.length` always
suffices. -/
def decodeListF : Nat → List Nat → Option (List Value × List Nat)
  | 0, _ => none
  | fuel + 1, l =>
    match l with
    | 3 :: r => some ([], r)
    | 0 :: r =>
      match decodeInt r with
      | some (i, r1) =>
        match decodeListF fuel r1 with
        | some (vs, r2) => some (.int i :: vs, r2)
        | none => none
      | none => none
    | 1 :: r =>
      match decodeNat r with
      | some (k, r1) =>
        match decodeChars k r1 with
        | some (cs, r2) =>
          match decodeListF fuel r2 with
          | some (vs, r3) => some (.str (String.mk cs) :: vs, r3)
          | none => none
        | none => none
      | none => none
    | 2 :: r =>
      match decodeListF fuel r with
      | some (ws, r1) =>
        match decodeListF fuel r1 with
        | some (vs, r2) => some (.list ws :: vs, r2)
        | none => none
      | none => none
    | _ => none

/-- Decode a single value (inverse of `encodeV`). -/
def decodeVF (fuel : Nat) : List Nat → Option (Value × List Nat)
  | 0 :: r => (decodeInt r).map (fun x => (Value.int x.1, x.2))
  | 1 :: r =>
    match decodeNat r with
    | some (k, r1) => (decodeChars k r1).map (fun x => (Value.str (String.mk x.1), x.2))
    | none => none
  | 2 :: r => (decodeListF fuel r).map (fun x => (Value.list x.1, x.2))
  | _ => none

/-- The source's `dumps(game_data)` (modelled, see `encodeV`). -/
def dumps (v : Value) : List Nat := encodeV v

/-- The source's `loads(payload)` (modelled); fails — as `pickle.loads` raises —
on input that is not a well-formed encoding, in particular on the empty
payload `b""`. -/
def loads (l : List Nat) : Option Value := (decodeVF l.length l).map (fun x => x.1)

theorem decodeNat_enc (n : Nat) (rest : List Nat) :
    decodeNat (encNat n ++ rest) = some (n, rest) := by
  induction n with
  | zero => simp [encNat, decodeNat]
  | succ m ih => simp [encNat, List.replicate_succ, decodeNat] at ih ⊢; simp [ih]

theorem decodeInt_enc (i : Int) (rest : List Nat) :
    decodeInt (encInt i ++ rest) = some (i, rest) := by
  by_cases hi : i < 0
  · have h1 : (((-i).toNat : Int)) = -i := by omega
    simp [encInt, hi, decodeInt, decodeNat_enc, h1]
  · have h1 : ((i.toNat : Int)) = i := by omega
    simp [encInt, hi, decodeInt, decodeNat_enc, h1]

theorem decodeChars_enc (cs : List Char) (rest : List Nat) :
    decodeChars cs.length ((cs.map encChar).flatten ++ rest) = some (cs, rest) := by
  induction cs with
  | nil => simp [decodeChars]
  | cons c cs' ih =>
    simp only [List.map_cons, List.flatten_cons, List.length_cons, List.append_assoc]
    simp [decodeChars, encChar, decodeNat_enc, ih, Char.ofNat_toNat]

theorem encodeV_ne_nil (v : Value) : encodeV v ≠ [] := by
  cases v <;> simp [encodeV]

theorem encodeList_length_pos (vs : List Value) : 1 ≤ (encodeList vs).length := by
  cases vs with
  | nil => simp [encodeList]
  | cons v vs' =>
    simp only [encodeList, List.length_append]
    have := encodeV_ne_nil v
    have : 1 ≤ (encodeV v).length := by
      cases h : encodeV v with
      | nil => exact absurd h this
      | cons a t => simp
    omega

theorem decodeListF_enc (fuel : Nat) :
    ∀ (vs : List Value) (rest : List Nat), (encodeList vs).length ≤ fuel →
      decodeListF fuel (encodeList vs ++ rest) = some (vs, rest) := by
  induction fuel with
  | zero =>
    intro vs rest h
    have := encodeList_length_pos vs
    omega
  | succ fuel ih =>
    intro vs rest h
    match vs with
    | [] => simp [encodeList, decodeListF]
    | .int i :: vs' =>
      have hlen : (encodeList vs').length ≤ fuel := by
        have h1 := encodeList_length_pos vs'
        simp only [encodeList, encodeV, List.length_append, List.length_cons] at h
        omega
      simp only [encodeList, encodeV, List.cons_append, List.append_assoc]
      simp [decodeListF, decodeInt_enc, ih vs' rest hlen]
    | .str s :: vs' =>
      obtain ⟨d⟩ := s
      have hlen : (encodeList vs').length ≤ fuel := by
        have h1 := encodeList_length_pos vs'
        simp only [encodeList, encodeV, List.length_append, List.length_cons] at h
        omega
      simp only [encodeList, encodeV, encStr, List.cons_append, List.append_assoc]
      simp [decodeListF, decodeNat_enc, decodeChars_enc, ih vs' rest hlen]
    | .list ws :: vs' =>
      have hlen1 : (encodeList ws).length ≤ fuel := by
        have h1 := encodeList_length_pos vs'
        simp only [encodeList, encodeV, List.length_append, List.length_cons] at h
        omega
      have hlen2 : (encodeList vs').length ≤ fuel := by
        have h1 := encodeList_length_pos ws
        simp only [encodeList, encodeV, List.length_append, List.length_cons] at h
        omega
      simp only [encodeList, encodeV, List.cons_append, List.append_assoc]
      simp [decodeListF, ih ws _ hlen1, ih vs' rest hlen2]

/-- The codec round-trips every value: `loads (dumps v) = some v`. -/
theorem loads_dumps (v : Value) : loads (dumps v) = some v := by
  cases v with
  | int i =>
    have := decodeInt_enc i []
    simp only [List.append_nil] at this
    simp [loads, dumps, encodeV, decodeVF, this]
  | str s =>
    obtain ⟨d⟩ := s
    have h1 := decodeNat_enc d.length ((d.map encChar).flatten)
    have h2 := decodeChars_enc d []
    simp only [List.append_nil] at h2
    simp [loads, dumps, encodeV, encStr, decodeVF, h1, h2]
  | list ws =>
    have hd := decodeListF_enc ((encodeList ws).length + 1) ws [] (by omega)
    simp only [List.append_nil] at hd
    simp [loads, dumps, encodeV, decodeVF, hd]

/-! ## The `Pipe` session (frontend/test/test2.py)

Exceptions that can cross the modelled calls.  In CPython's hierarchy
`ConnectionAbortedError` is a subclass of `ConnectionError`; `OSError(EISCONN)`
(raised by `socket.connect` on an already-connected stream socket) is not. -/

inductive PyExc where
  | connectionError
  | connectionAborted
  | osErrorEISCONN
  | valueError
  | indexError
  | unpicklingError
deriving DecidableEq

/-- Whether an exception is caught by `except ConnectionError`. -/
def isConnectionError : PyExc → Bool
  | .connectionError => true
  | .connectionAborted => true
  | _ => false

/-- The mutable state of a `Pipe` object (`Pipe.__init__`).  The TCP socket is
represented by its connected flag. -/
structure PipeState where
  server : String
  port : Nat
  sockConnected : Bool
  connected : Bool
  username : Option String
  udp_password : Option Int
  game_port : Option Int
deriving DecidableEq

/-- `Pipe.__init__(server, port)`. -/
def pipeInit (server : String) (port : Nat) : PipeState :=
  { server := server, port := port, sockConnected := false, connected := false,
    username := none, udp_password := none, game_port := none }

/-- CPython `socket.connect` on a stream socket: raises `OSError(EISCONN)` when
the socket is already connected, `ConnectionRefusedError` (a `ConnectionError`)
when the peer is unreachable, and connects otherwise.  `reachable` is the
environment oracle for the peer. -/
def tcpConnect (sockConnected reachable : Bool) : Except PyExc Bool :=
  if sockConnected then .error .osErrorEISCONN
  else if reachable then .ok true
  else .error .connectionError

/-- `Pipe.connect`: runs `self.tcp.connect(...)`, sets `self.connected` and
returns `True` on success; `except ConnectionError: return False`; any other
exception propagates. -/
def connect (p : PipeState) (reachable : Bool) : Except PyExc (Bool × PipeState) :=
  match tcpConnect p.sockConnected reachable with
  | .ok _ => .ok (true, { p with sockConnected := true, connected := true })
  | .error e => if isConnectionError e then .ok (false, p) else .error e

/-- The mode-specific reply grammar of `Pipe.login`: the branch on
`entry == "create"` and the byte-literal comparisons of the reply. -/
def login_decode (entry : String) (response : String) : Bool × String :=
  if entry = "create" then
    if response = "Rename" then (false, "rename")
    else if response = "Done" then (true, "created")
    else (false, "invalid")
  else
    if response = "Missing" then (false, "missing")
    else if response = "Full" then (false, "full")
    else (true, "joined")

/-- `Pipe.login`: stores the username, auto-connects if needed (returning
`(False, "error in connection")` on failure), sends
`f"{entry},,{room_name},,{username}"`, receives one reply (`response`, the
result of `tcp.recv(100)`) and decodes it by the mode-specific grammar. -/
def login (p : PipeState) (entry room_name username : String) (reachable : Bool)
    (response : String) : Except PyExc ((Bool × String) × PipeState) :=
  let p1 := { p with username := some username }
  if p1.connected then .ok (login_decode entry response, p1)
  else
    match connect p1 reachable with
    | .ok (true, p2) => .ok (login_decode entry response, p2)
    | .ok (false, p2) => .ok ((false, "error in connection"), p2)
    | .error e => .error e

/-- Python `int(s)` restricted to optional-sign decimal-digit strings (the
source never feeds it whitespace or underscores); `none` models the
`ValueError` raise. -/
def digitsVal (ds : List Char) : Nat :=
  ds.foldl (fun a c => a * 10 + (c.toNat - 48)) 0

/-- Python `int(s)` on a text field. -/
def pyInt (s : String) : Option Int :=
  match s.data with
  | [] => none
  | '-' :: ds =>
    if ds ≠ [] ∧ ds.all (fun c => c.isDigit) then some (-(digitsVal ds : Int)) else none
  | '+' :: ds =>
    if ds ≠ [] ∧ ds.all (fun c => c.isDigit) then some ((digitsVal ds : Int)) else none
  | ds =>
    if ds.all (fun c => c.isDigit) then some ((digitsVal ds : Int)) else none

/-- Python `s.split(sep)` on text, for a nonempty separator. -/
def pySplit (sep s : String) : List String :=
  (splitSep sep.data s.data).map (fun cs => String.mk cs)

/-- A Python value returned by `await_response`: the decoded text fields, or
the boolean `False` of the sentinel `[False]`. -/
inductive PyVal where
  | str (s : String)
  | bool (b : Bool)
deriving DecidableEq

/-- The outcome of the blocking `tcp.recv(1000)` inside `await_response`:
either a decoded text message or a `ConnectionAbortedError` raise. -/
inductive RecvOutcome where
  | data (s : String)
  | aborted

/-- `Pipe.await_response`: splits the inbound message on `",,"`; when the first
field is `"Start"` runs `self.game_port = int(data[1])` then
`self.udp_password = int(data[2])` (so a missing field raises `IndexError` and
a non-numeric one `ValueError`, in Python's evaluation order), returns the
field list; `except ConnectionAbortedError: return [False]`.  The `.error`
results model uncaught raises reaching the public interface (the partial
assignment to `game_port` made before a raise on `data[2]` is then
unobservable in this model, as no claim mentions it). -/
def await_response (p : PipeState) (inbound : RecvOutcome) :
    Except PyExc (List PyVal × PipeState) :=
  match inbound with
  | .aborted => .ok ([.bool false], p)
  | .data msg =>
    let fields := pySplit ",," msg
    if fields.headI = "Start" then
      match fields[1]? with
      | none => .error .indexError
      | some f1 =>
        match pyInt f1 with
        | none => .error .valueError
        | some gp =>
          match fields[2]? with
          | none => .error .indexError
          | some f2 =>
            match pyInt f2 with
            | none => .error .valueError
            | some pw =>
              .ok (fields.map PyVal.str,
                { p with game_port := some gp, udp_password := some pw })
    else .ok (fields.map PyVal.str, p)

/-! ## `Pipe.transport` -/

/-- The receive-side unpacking of `Pipe.transport` at the byte level:
`data.split(b"||||")`; if more than one part, `data[0].split(b"||")` gives the
payloads; otherwise there is no batch. -/
def unpack_bytes (d : List Nat) : Option (List (List Nat)) :=
  let parts := splitSep outerDelim d
  if 1 < parts.length then some (splitSep innerDelim parts.headI) else none

/-- The send side of `Pipe.transport`: prepend the shared secret and username
to the update (the Outgoing Envelope), serialize, append OUTER_DELIM. -/
def transport_send (udp_password : Int) (username : String) (game_data : List Value) :
    List Nat :=
  dumps (.list (.int udp_password :: .str username :: game_data)) ++ outerDelim

/-- The receive side of `Pipe.transport`: split the reply datagram, and either
decode every payload (`True, data`) — where a `loads` failure is an uncaught
raise — or report no batch (`False, None`). -/
def transport_recv (d : List Nat) : Except PyExc (Bool × Option (List Value)) :=
  match unpack_bytes d with
  | some payloads =>
    match payloads.mapM loads with
    | some batch => .ok (true, some batch)
    | none => .error .unpicklingError
  | none => .ok (false, none)

/-! ## The queues and the Sync Bridge (frontend/views/gameview.py) -/

/-- `multiprocessing.Queue.put`: FIFO append at the back. -/
def queuePut {β : Type _} (q : List β) (x : β) : List β := q ++ [x]

/-- `multiprocessing.Queue.get`: remove at the front (the oldest entry). -/
def queueGet? {β : Type _} (q : List β) : Option β × List β :=
  match q with
  | [] => (none, [])
  | x :: r => (some x, r)

/-- The feedback read of `GameView.stream`:
`if not self.feedback.empty(): data = self.feedback.get()`. -/
def pollFeedback {β : Type _} (q : List β) : Option β × List β :=
  if q.isEmpty then (none, q) else queueGet? q

/-- The queue-drain step of `networking` (gameview.py): read `n = qsize()`,
discard `n - 2` entries unread, then `get` one entry to transmit.  `none`
models the final `get` blocking forever on an empty queue. -/
def networkingDrain {β : Type _} (q : List β) : Option (List β × β × List β) :=
  match q.drop (q.length - 2) with
  | [] => none
  | x :: rest => some (q.take (q.length - 2), x, rest)

/-- The per-cycle outcome of `udp.transport(data)` as seen by the bridge:
a returned value, or a socket-level transport error. -/
inductive TransportOutcome (β : Type _) where
  | ok (b : β)
  | err (e : PyExc)

/-- The state the Sync Bridge loop acts on: the two queues and the log. -/
structure BridgeState (γ β : Type _) where
  forward : List γ
  feedback : List β
  log : List PyExc
deriving DecidableEq

/-- Modelled from the spec: one cycle of the `networking` bridge loop with the
per-cycle transport error handling of the production Sync Bridge (the spec's
§7: "per-cycle transport errors inside the Sync Bridge are logged and the loop
continues"; the error-catching print is not part of the sources provided —
the test-directory prototype `Pipe.transport` has no handler).  The drain is
the source's `networkingDrain`; on a transport error the error is logged and
nothing is published; on success the result is put on the feedback queue. -/
def bridgeCycle {γ β : Type _} (st : BridgeState γ β) (io : TransportOutcome β) :
    BridgeState γ β :=
  match networkingDrain st.forward with
  | none => st
  | some (_, _, rest) =>
    match io with
    | .ok b => { st with forward := rest, feedback := queuePut st.feedback b }
    | .err e => { st with forward := rest, log := st.log ++ [e] }

/-- Iterating the bridge loop over a sequence of per-cycle transport outcomes. -/
def bridgeRun {γ β : Type _} (st : BridgeState γ β) : List (TransportOutcome β) → BridgeState γ β
  | [] => st
  | io :: ios => bridgeRun (bridgeCycle st io) ios

/-! ## The claims -/

/-- C1: for a bridge cycle starting with outgoing-queue depth `n ≥ 3`, the
drain step of `networking` removes exactly `n - 2` entries unread (the
oldest ones, `q.take (n - 2)`), then removes and transmits exactly one entry,
which is the `(n-1)`-th enqueued update — the older of the two retained
entries `q.drop (n - 2)`. -/
theorem claim_c1 (q : List Nat) (h : 3 ≤ q.length) :
    networkingDrain q =
      some (q.take (q.length - 2), q.getD (q.length - 2) 0, [q.getD (q.length - 1) 0]) ∧
    (q.take (q.length - 2)).length = q.length - 2 ∧
    q.drop (q.length - 2) = [q.getD (q.length - 2) 0, q.getD (q.length - 1) 0] := by
  have hl : (q.drop (q.length - 2)).length = 2 := by
    simp only [List.length_drop]
    omega
  obtain ⟨a, b, hab⟩ := List.length_eq_two.mp hl
  have ha : q.getD (q.length - 2) 0 = a := by
    have h0 : (q.drop (q.length - 2))[0]? = some a := by rw [hab]; rfl
    rw [List.getElem?_drop] at h0
    simp only [Nat.add_zero] at h0
    simp [List.getD_eq_getElem?_getD, h0]
  have hb : q.getD (q.length - 1) 0 = b := by
    have h1 : (q.drop (q.length - 2))[1]? = some b := by rw [hab]; rfl
    rw [List.getElem?_drop] at h1
    have he : q.length - 2 + 1 = q.length - 1 := by omega
    rw [he] at h1
    simp [List.getD_eq_getElem?_getD, h1]
  refine ⟨?_, ?_, ?_⟩
  · rw [ha, hb]
    unfold networkingDrain
    rw [hab]
  · simp only [List.length_take]
    omega
  · rw [hab, ha, hb]

/-- Witness for C1 at the concrete queue `[10, 20, 30]` (depth 3): one entry
is discarded, `20` is transmitted, `30` is retained. -/
theorem claim_c1_witness :
    3 ≤ ([10, 20, 30] : List Nat).length ∧
      (networkingDrain ([10, 20, 30] : List Nat) =
        some (([10, 20, 30] : List Nat).take (([10, 20, 30] : List Nat).length - 2),
          ([10, 20, 30] : List Nat).getD (([10, 20, 30] : List Nat).length - 2) 0,
          [([10, 20, 30] : List Nat).getD (([10, 20, 30] : List Nat).length - 1) 0]) ∧
      (([10, 20, 30] : List Nat).take (([10, 20, 30] : List Nat).length - 2)).length =
        ([10, 20, 30] : List Nat).length - 2 ∧
      ([10, 20, 30] : List Nat).drop (([10, 20, 30] : List Nat).length - 2) =
        [([10, 20, 30] : List Nat).getD (([10, 20, 30] : List Nat).length - 2) 0,
          ([10, 20, 30] : List Nat).getD (([10, 20, 30] : List Nat).length - 1) 0]) :=
  ⟨by decide, claim_c1 [10, 20, 30] (by decide)⟩

/-- C2 is false on the code: the feedback channel is a plain
`multiprocessing.Queue`, so a second published batch queues behind — it does
not overwrite — an unread first batch, and the next poll by the render loop
returns the first cycle's batch (here `1`), not the second cycle's (`2`). -/
theorem claim_c2_counterexample :
    pollFeedback (queuePut (queuePut ([] : List Nat) 1) 2) = (some 1, [2]) ∧
      (some 1 : Option Nat) ≠ some 2 :=
  ⟨rfl, by decide⟩

/-- C2 amended: the feedback channel queues batches FIFO.  After two bridge
cycles publish `b1` then `b2` with no intervening poll, both batches are held;
the next poll returns the first cycle's batch `b1` and leaves `b2` queued. -/
theorem claim_c2_amended (b1 b2 : Nat) :
    pollFeedback (queuePut (queuePut ([] : List Nat) b1) b2) = (some b1, [b2]) := rfl

/-- C3 is false on the code: the datagram packing zero payloads per the spec's
`pack` (OUTER_DELIM alone, `b"||||"`) makes `transport` split off the empty
leading part and feed `b""` to `loads`, which raises — it does not return
`(False, None)`. -/
theorem claim_c3_counterexample :
    transport_recv (packSpec []) = .error .unpicklingError ∧
      transport_recv (packSpec []) ≠ .ok (false, none) :=
  ⟨rfl, by simp [show transport_recv (packSpec []) = .error .unpicklingError from rfl]⟩

/-- C3 amended: `transport` returns `(False, None)` exactly for a reply
datagram with no occurrence of OUTER_DELIM — in particular the zero-length
datagram (the spec's own description of the empty pack) — and this outcome is
a normal return, not a raise. -/
theorem claim_c3_amended (d : List Nat) (h : containsSeq outerDelim d = false) :
    transport_recv d = .ok (false, none) := by
  have hs := splitSep_of_not_contains outerDelim d h
  simp [transport_recv, unpack_bytes, hs]

/-- Witness for the amended C3 at the zero-length reply datagram. -/
theorem claim_c3_witness :
    containsSeq outerDelim ([] : List Nat) = false ∧
      transport_recv [] = .ok (false, none) :=
  ⟨by decide, claim_c3_amended [] (by decide)⟩

/-- C4: `login` decodes the single reply by the mode-specific grammar — in
create mode `"Rename"` gives `(False, "rename")`, `"Done"` gives
`(True, "created")` and anything else `(False, "invalid")`; in join mode
`"Missing"` gives `(False, "missing")`, `"Full"` gives `(False, "full")` and
anything else `(True, "joined")`. -/
theorem claim_c4 :
    login_decode "create" "Rename" = (false, "rename") ∧
    login_decode "create" "Done" = (true, "created") ∧
    (∀ r : String, r ≠ "Rename" → r ≠ "Done" →
      login_decode "create" r = (false, "invalid")) ∧
    login_decode "join" "Missing" = (false, "missing") ∧
    login_decode "join" "Full" = (false, "full") ∧
    (∀ r : String, r ≠ "Missing" → r ≠ "Full" →
      login_decode "join" r = (true, "joined")) := by
  refine ⟨rfl, rfl, ?_, rfl, rfl, ?_⟩
  · intro r h1 h2
    simp [login_decode, h1, h2]
  · intro r h1 h2
    simp [login_decode, h1, h2]

/-- Witness for C4: an unrecognized create-mode reply decodes to `invalid`. -/
theorem claim_c4_witness :
    ("Hello" : String) ≠ "Rename" ∧ ("Hello" : String) ≠ "Done" ∧
      login_decode "create" "Hello" = (false, "invalid") :=
  ⟨by decide, by decide, claim_c4.2.2.1 "Hello" (by decide) (by decide)⟩

/-- C5: when the inbound handshake message splits on `",,"` into
`"Start"` followed by two integer fields, `await_response` stores the second
field as the session's datagram port and the third as the shared secret, and
returns the full parsed field list. -/
theorem claim_c5 (p : PipeState) (msg f1 f2 : String) (fs : List String) (gp pw : Int)
    (hsplit : pySplit ",," msg = "Start" :: f1 :: f2 :: fs)
    (h1 : pyInt f1 = some gp) (h2 : pyInt f2 = some pw) :
    await_response p (.data msg) =
      .ok (("Start" :: f1 :: f2 :: fs).map PyVal.str,
        { p with game_port := some gp, udp_password := some pw }) := by
  simp [await_response, hsplit, h1, h2]

/-- Witness for C5: the message `"Start,,5005,,42"` sets the datagram port to
`5005` and the shared secret to `42` and returns the parsed fields. -/
theorem claim_c5_witness :
    pySplit ",," "Start,,5005,,42" = "Start" :: "5005" :: "42" :: [] ∧
    pyInt "5005" = some 5005 ∧ pyInt "42" = some 42 ∧
    await_response (pipeInit "localhost" 9000) (.data "Start,,5005,,42") =
      .ok (("Start" :: "5005" :: "42" :: ([] : List String)).map PyVal.str,
        { pipeInit "localhost" 9000 with game_port := some 5005, udp_password := some 42 }) :=
  ⟨by decide, by decide, by decide,
    claim_c5 (pipeInit "localhost" 9000) "Start,,5005,,42" "5005" "42" [] 5005 42
      (by decide) (by decide) (by decide)⟩

/-- C6 is false on the code: the payloads `b"a|"` and `b"|b"` contain neither
OUTER_DELIM nor INNER_DELIM, yet joining them with INNER_DELIM creates a
spurious OUTER_DELIM (`a||||b`), so unpacking the packed datagram yields
`[b"a"]` instead of the original payloads. -/
theorem claim_c6_counterexample :
    (([[97, 124], [124, 98]] : List (List Nat)) ≠ []) ∧
    containsSeq outerDelim [97, 124] = false ∧ containsSeq innerDelim [97, 124] = false ∧
    containsSeq outerDelim [124, 98] = false ∧ containsSeq innerDelim [124, 98] = false ∧
    unpack_bytes (packSpec [[97, 124], [124, 98]]) = some [[97]] ∧
    unpack_bytes (packSpec [[97, 124], [124, 98]]) ≠ some [[97, 124], [124, 98]] := by
  decide

/-- C6 amended: for every nonempty sequence of payloads each of which is
nonempty, contains no INNER_DELIM (`b"||"`), and does not end with the pipe
byte, unpacking the packed datagram yields exactly the original payloads in
order. -/
theorem claim_c6_amended (P : List (List Nat)) (hP : P ≠ [])
    (hall : P.all goodPayload = true) :
    unpack_bytes (packSpec P) = some P := by
  simp [unpack_bytes, packSpec, splitSep_outer_pack P hP hall,
    splitSep_inner_join P hP hall]

/-- Witness for the amended C6 at the two-payload batch `[b"a", b"b"]`. -/
theorem claim_c6_witness :
    (([[97], [98]] : List (List Nat)) ≠ []) ∧
      ([[97], [98]] : List (List Nat)).all goodPayload = true ∧
      unpack_bytes (packSpec [[97], [98]]) = some [[97], [98]] :=
  ⟨by decide, by decide, claim_c6_amended [[97], [98]] (by decide) (by decide)⟩

/-- C7: a per-cycle transport error in the Sync Bridge is logged and the loop
continues to the next cycle — the error is appended to the log, nothing is
published, and the run over the remaining cycles proceeds from the post-error
state (see `bridgeCycle`, whose error handling is modelled from the spec). -/
theorem claim_c7 {γ β : Type _} (st : BridgeState γ β) (e : PyExc)
    (ios : List (TransportOutcome β)) (h : st.forward ≠ []) :
    (bridgeCycle st (.err e)).log = st.log ++ [e] ∧
    (bridgeCycle st (.err e)).feedback = st.feedback ∧
    bridgeRun st (.err e :: ios) = bridgeRun (bridgeCycle st (.err e)) ios := by
  have hlen : 1 ≤ st.forward.length := by
    cases hf : st.forward with
    | nil => exact absurd hf h
    | cons a t => simp [hf]
  have hd : st.forward.drop (st.forward.length - 2) ≠ [] := by
    intro hnil
    have hc := congrArg List.length hnil
    simp only [List.length_drop, List.length_nil] at hc
    omega
  obtain ⟨x, t, hxt⟩ := List.exists_cons_of_ne_nil hd
  refine ⟨?_, ?_, rfl⟩ <;> simp [bridgeCycle, networkingDrain, hxt]

/-- Witness for C7 on a one-entry queue and a failing cycle. -/
theorem claim_c7_witness :
    (BridgeState.mk [5] [] [] : BridgeState Nat Nat).forward ≠ [] ∧
      ((bridgeCycle (BridgeState.mk [5] [] [] : BridgeState Nat Nat)
          (.err .connectionError)).log =
        (BridgeState.mk [5] [] [] : BridgeState Nat Nat).log ++ [.connectionError] ∧
      (bridgeCycle (BridgeState.mk [5] [] [] : BridgeState Nat Nat)
          (.err .connectionError)).feedback =
        (BridgeState.mk [5] [] [] : BridgeState Nat Nat).feedback ∧
      bridgeRun (BridgeState.mk [5] [] [] : BridgeState Nat Nat) [.err .connectionError] =
        bridgeRun (bridgeCycle (BridgeState.mk [5] [] [] : BridgeState Nat Nat)
          (.err .connectionError)) []) :=
  ⟨by decide, claim_c7 (BridgeState.mk [5] [] []) .connectionError [] (by decide)⟩

/-- C8 is false on the code: on a session whose TCP socket is already
connected, a second `connect()` call is not a no-op — `socket.connect` raises
`OSError(EISCONN)`, which the `except ConnectionError` clause does not catch,
so the call raises instead of returning. -/
theorem claim_c8_counterexample :
    connect { pipeInit "localhost" 9000 with sockConnected := true, connected := true }
        true = .error .osErrorEISCONN ∧
      (Except.error PyExc.osErrorEISCONN ≠
        (Except.ok (true,
          { pipeInit "localhost" 9000 with sockConnected := true, connected := true }) :
            Except PyExc (Bool × PipeState))) :=
  ⟨rfl, fun hcontra => nomatch hcontra⟩

/-- C8 amended: a second `connect()` on an already-connected session raises an
uncaught `OSError(EISCONN)` — `connect` catches only `ConnectionError` — and
performs no state update before the raise. -/
theorem claim_c8_amended (p : PipeState) (reachable : Bool)
    (h : p.sockConnected = true) :
    connect p reachable = .error .osErrorEISCONN := by
  simp [connect, tcpConnect, h, isConnectionError]

/-- Witness for the amended C8 on a freshly connected session. -/
theorem claim_c8_witness :
    ({ pipeInit "localhost" 9000 with sockConnected := true, connected := true } :
        PipeState).sockConnected = true ∧
      connect { pipeInit "localhost" 9000 with sockConnected := true, connected := true }
        true = .error .osErrorEISCONN :=
  ⟨rfl, claim_c8_amended _ true rfl⟩

/-- C9: decoding the encoding of any ordered sequence of primitive/composite
values yields the sequence back — `loads (dumps v) = some v` for every
sequence value (the codec modelled from the spec's Frame Codec contract for
the external `pickle`). -/
theorem claim_c9 (vs : List Value) :
    loads (dumps (Value.list vs)) = some (Value.list vs) :=
  loads_dumps (Value.list vs)

/-- C10: `await_response` handles only connection-abort: a `"Start"` message
with a non-numeric port field raises `ValueError` and one with a missing
third field raises `IndexError` — both escape to the public interface — while
a connection abort returns the sentinel `[False]`. -/
theorem claim_c10 (p : PipeState) :
    await_response p (.data "Start,,abc,,42") = .error .valueError ∧
    await_response p (.data "Start,,5005") = .error .indexError ∧
    await_response p .aborted = .ok ([.bool false], p) :=
  ⟨rfl, rfl, rfl⟩

end PixelSoup
